import Mathlib

set_option maxRecDepth 8000

/-
Verification development for the RAM Concept client library.
Strings are modeled as `List Char`; Python `str.find` results use `Option Nat`
with `none` standing for the `-1` failure value.  Unbounded `while` loops are
modeled by fuel-indexed iteration; a fuel of `s.length + 1` is proved
sufficient below, so the wrappers that supply that fuel are total models of the
source loops.
-/

namespace BracketParser

/-- The opening delimiter (the START_TAG constant of bracket_parser.py). -/
def START_TAG : Char := '['

/-- The closing delimiter (the END_TAG constant of bracket_parser.py). -/
def END_TAG : Char := ']'

/-- Offset of the first occurrence of a character in a list, counted from the
head of the list; helper for modeling the Python builtin str.find. -/
def findFrom : List Char → Char → Option Nat
  | [], _ => none
  | a :: rest, c => if a = c then some 0 else (findFrom rest c).map (· + 1)

/-- Python str.find(c, start) for a single-character needle: the least index
of c at or after start, with `none` standing for the -1 failure value. -/
def pyFind (s : List Char) (c : Char) (start : Nat) : Option Nat :=
  (findFrom (s.drop start) c).map (fun k => start + k)

theorem findFrom_some {l : List Char} {c : Char} {j : Nat}
    (h : findFrom l c = some j) :
    l.get? j = some c ∧ ∀ k, k < j → l.get? k ≠ some c := by
  induction l generalizing j with
  | nil => simp [findFrom] at h
  | cons a rest ih =>
    by_cases ha : a = c
    · simp [findFrom, ha] at h
      subst h
      simp [ha]
    · simp [findFrom, ha] at h
      obtain ⟨j', hj', rfl⟩ := h
      obtain ⟨h1, h2⟩ := ih hj'
      refine ⟨by simpa using h1, ?_⟩
      intro k hk
      cases k with
      | zero => simpa using ha
      | succ k' =>
        simp only [List.get?_cons_succ]
        exact h2 k' (by omega)

theorem findFrom_none {l : List Char} {c : Char}
    (h : findFrom l c = none) : ∀ k, l.get? k ≠ some c := by
  induction l with
  | nil => intro k; simp
  | cons a rest ih =>
    by_cases ha : a = c
    · simp [findFrom, ha] at h
    · simp [findFrom, ha] at h
      intro k
      cases k with
      | zero => simpa using ha
      | succ k' => simpa using ih h k'

theorem findFrom_cons_self (c : Char) (rest : List Char) :
    findFrom (c :: rest) c = some 0 := by
  simp [findFrom]

theorem pyFind_some {s : List Char} {c : Char} {start j : Nat}
    (h : pyFind s c start = some j) :
    start ≤ j ∧ s.get? j = some c ∧ ∀ k, start ≤ k → k < j → s.get? k ≠ some c := by
  simp only [pyFind, Option.map_eq_some'] at h
  obtain ⟨k0, hk0, rfl⟩ := h
  obtain ⟨h1, h2⟩ := findFrom_some hk0
  rw [List.get?_drop] at h1
  refine ⟨Nat.le_add_right _ _, h1, ?_⟩
  intro k hsk hk
  have : k = start + (k - start) := by omega
  rw [this]
  rw [← List.get?_drop]
  exact h2 (k - start) (by omega)

theorem pyFind_none {s : List Char} {c : Char} {start : Nat}
    (h : pyFind s c start = none) :
    ∀ k, start ≤ k → s.get? k ≠ some c := by
  simp only [pyFind, Option.map_eq_none'] at h
  intro k hk
  have : k = start + (k - start) := by omega
  rw [this, ← List.get?_drop]
  exact findFrom_none h _

theorem pyFind_self {s : List Char} {c : Char} {start : Nat}
    (h : s.get? start = some c) : pyFind s c start = some start := by
  have hd : s.drop start = c :: s.drop (start + 1) := by
    have hlt : start < s.length := (List.get?_eq_some.mp h).1
    rw [List.drop_eq_getElem_cons hlt]
    have : s[start] = c := by
      have := List.get?_eq_getElem? s start
      rw [h] at this
      have h2 := List.getElem?_eq_getElem hlt
      rw [h2] at this
      exact (Option.some_injective _ this.symm)
    rw [this]
  simp [pyFind, hd, findFrom_cons_self]

/-- The nesting scan exactly as the specification words it: walk the string one
character past the opening delimiter at nesting level 1; an opening delimiter
increments the level, a closing delimiter decrements it, and the first
decrement to zero selects the match.  The input list is the remainder of the
string just past the opening delimiter and the result is the offset of the
matching closing delimiter in that remainder (`none` when no match exists). -/
def scanL : List Char → Int → Option Nat
  | [], _ => none
  | c :: rest, nesting =>
    if c = START_TAG then (scanL rest (nesting + 1)).map (· + 1)
    else if c = END_TAG then
      if nesting - 1 = 0 then some 0
      else (scanL rest (nesting - 1)).map (· + 1)
    else (scanL rest nesting).map (· + 1)

/-- The specification-mandated matching function, stated over absolute indexes
of the full string: the match for the opening delimiter at index i is found by
the nesting scan starting just past i at nesting level 1. -/
def matchSpecIndex (s : List Char) (i : Nat) : Option Nat :=
  (scanL (s.drop (i + 1)) 1).map (fun k => i + 1 + k)

/-- One iteration of the while loop of matching_end_tag_index either returns a
final result or continues at a new scan index and nesting level. -/
inductive MetiStep where
  | done (result : Option Nat)
  | cont (currentIndex : Nat) (nestingLevel : Int)
deriving DecidableEq

/-- The body of the while loop of BracketParser.matching_end_tag_index: find
the next start tag and end tag from the current index; no end tag means no
match (-1, modeled none); a missing start tag counts as one at infinity
(sys.maxsize in the source; any value exceeding every end-tag index behaves
identically, and s.length does because end-tag indexes are below it); the
earlier of the two tags drives the nesting level up or down, and a decrement
to zero returns that end tag index. -/
def metiStep (s : List Char) (currentIndex : Nat) (nestingLevel : Int) : MetiStep :=
  match pyFind s END_TAG currentIndex with
  | none => .done none
  | some endTagIndex =>
    let startTagIndex := (pyFind s START_TAG currentIndex).getD s.length
    if startTagIndex < endTagIndex then
      .cont (startTagIndex + 1) (nestingLevel + 1)
    else
      if nestingLevel - 1 = 0 then .done (some endTagIndex)
      else .cont (endTagIndex + 1) (nestingLevel - 1)

/-- Fuel-indexed iteration of the matching_end_tag_index loop; the outer
`none` means the fuel ran out (shown impossible for fuel s.length + 1). -/
def metiRun : Nat → List Char → Nat → Int → Option (Option Nat)
  | 0, _, _, _ => none
  | fuel + 1, s, currentIndex, nestingLevel =>
    match metiStep s currentIndex nestingLevel with
    | .done r => some r
    | .cont c n => metiRun fuel s c n

/-- BracketParser.matching_end_tag_index: index of the end tag matching the
start tag at start_tag_index, with `none` standing for -1.  The loop starts
just past the start tag at nesting level one; the fuel s.length + 1 is proved
sufficient (metiRun_eq_scan), so the default never fires. -/
def matching_end_tag_index (s : List Char) (start_tag_index : Nat) : Option Nat :=
  (metiRun (s.length + 1) s (start_tag_index + 1) 1).getD none

theorem scanL_append_free {seg : List Char}
    (hseg : ∀ c ∈ seg, c ≠ START_TAG ∧ c ≠ END_TAG) (l : List Char) (d : Int) :
    scanL (seg ++ l) d = (scanL l d).map (seg.length + ·) := by
  induction seg with
  | nil =>
    cases h : scanL l d <;> simp [h]
  | cons a rest ih =>
    have ha := hseg a (by simp)
    have hrest : ∀ c ∈ rest, c ≠ START_TAG ∧ c ≠ END_TAG := by
      intro c hc; exact hseg c (by simp [hc])
    rw [List.cons_append]
    rw [scanL]
    rw [if_neg ha.1, if_neg ha.2]
    rw [ih hrest]
    cases h : scanL l d with
    | none => simp [h]
    | some k => simp [h]; omega

theorem scanL_none_of_no_end {l : List Char} (h : END_TAG ∉ l) (d : Int) :
    scanL l d = none := by
  induction l generalizing d with
  | nil => rfl
  | cons a rest ih =>
    have ha : a ≠ END_TAG := by
      intro hcontra; exact h (by simp [hcontra])
    have hrest : END_TAG ∉ rest := by
      intro hcontra; exact h (by simp [hcontra])
    by_cases h1 : a = START_TAG <;> simp [scanL, h1, ha, ih hrest]

theorem scanL_some {l : List Char} {d : Int} {k : Nat}
    (h : scanL l d = some k) : l.get? k = some END_TAG := by
  induction l generalizing d k with
  | nil => simp [scanL] at h
  | cons a rest ih =>
    by_cases h1 : a = START_TAG
    · simp [scanL, h1, START_TAG, END_TAG] at h
      obtain ⟨k', hk', rfl⟩ := h
      simpa using ih hk'
    · by_cases h2 : a = END_TAG
      · rw [scanL, if_neg h1, if_pos h2] at h
        by_cases h3 : d - 1 = 0
        · rw [if_pos h3] at h
          cases h
          simpa using h2
        · rw [if_neg h3] at h
          simp only [Option.map_eq_some'] at h
          obtain ⟨k', hk', rfl⟩ := h
          simpa using ih hk'
      · rw [scanL, if_neg h1, if_neg h2] at h
        simp only [Option.map_eq_some'] at h
        obtain ⟨k', hk', rfl⟩ := h
        simpa using ih hk'

/-- Full equivalence of the find-and-jump loop of matching_end_tag_index with
the character-by-character nesting scan of the specification, for every
sufficient fuel, every current index and every nesting level. -/
theorem metiRun_eq_scan :
    ∀ (fuel : Nat) (s : List Char) (currentIndex : Nat) (d : Int),
      1 ≤ fuel → s.length < fuel + currentIndex →
      metiRun fuel s currentIndex d =
        some ((scanL (s.drop currentIndex) d).map (fun k => currentIndex + k)) := by
  intro fuel
  induction fuel with
  | zero => intro s c d h1 _; omega
  | succ fuel ih =>
    intro s cur d _ hlen
    cases hE : pyFind s END_TAG cur with
    | none =>
      have hnone : END_TAG ∉ s.drop cur := by
        intro hmem
        obtain ⟨j, hj⟩ := List.mem_iff_get?.mp hmem
        rw [List.get?_drop] at hj
        exact pyFind_none hE (cur + j) (Nat.le_add_right _ _) hj
      rw [metiRun, metiStep, hE]
      rw [scanL_none_of_no_end hnone]
      rfl
    | some e =>
      obtain ⟨hce, hgetE, hminE⟩ := pyFind_some hE
      have helen : e < s.length := (List.get?_eq_some.mp hgetE).1
      have hfuel1 : 1 ≤ fuel := by omega
      set stv := (pyFind s START_TAG cur).getD s.length with hstv
      by_cases hlt : stv < e
      · -- an earlier start tag: nesting level goes up
        have hSsome : pyFind s START_TAG cur = some stv := by
          cases hS : pyFind s START_TAG cur with
          | none => rw [hstv, hS] at hlt ⊢; simp at hlt ⊢; omega
          | some st => rw [hstv, hS]; rfl
        obtain ⟨hcst, hgetS, hminS⟩ := pyFind_some hSsome
        have hdecomp : s.drop cur =
            (s.drop cur).take (stv - cur) ++ (START_TAG :: s.drop (stv + 1)) := by
          conv_lhs => rw [← List.take_append_drop (stv - cur) (s.drop cur)]
          congr 1
          rw [List.drop_drop]
          have h1 : cur + (stv - cur) = stv := by omega
          rw [h1, List.drop_eq_getElem_cons (by omega : stv < s.length)]
          congr 1
          have := List.get?_eq_getElem? s stv
          rw [hgetS, List.getElem?_eq_getElem (by omega : stv < s.length)] at this
          exact (Option.some_injective _ this).symm
        have hseg : ∀ c ∈ (s.drop cur).take (stv - cur),
            c ≠ START_TAG ∧ c ≠ END_TAG := by
          intro c hc
          obtain ⟨j, hj⟩ := List.mem_iff_get?.mp hc
          have hjlt : j < stv - cur := by
            by_contra hge
            rw [List.get?_take_eq_none (by omega)] at hj
            exact Option.noConfusion hj
          rw [List.get?_take hjlt, List.get?_drop] at hj
          constructor
          · intro hcontra
            exact hminS (cur + j) (by omega) (by omega) (by rw [hj, hcontra])
          · intro hcontra
            exact hminE (cur + j) (by omega) (by omega) (by rw [hj, hcontra])
        have hsegl : ((s.drop cur).take (stv - cur)).length = stv - cur := by
          rw [List.length_take]
          have : cur ≤ stv := hcst
          have : stv - cur ≤ (s.drop cur).length := by
            rw [List.length_drop]; omega
          omega
        have hstep : metiStep s cur d = MetiStep.cont (stv + 1) (d + 1) := by
          simp only [metiStep, hE]
          rw [show (pyFind s START_TAG cur).getD s.length = stv from rfl]
          rw [if_pos hlt]
        rw [metiRun, hstep]
        show metiRun fuel s (stv + 1) (d + 1) = _
        rw [ih s (stv + 1) (d + 1) hfuel1 (by omega)]
        rw [hdecomp, scanL_append_free hseg, hsegl]
        rw [scanL]
        rw [if_pos rfl]
        cases hsc : scanL (s.drop (stv + 1)) (d + 1) with
        | none => simp
        | some k => simp; omega
      · -- the end tag comes first: nesting level goes down
        have hNoOpen : ∀ j, j < e - cur → s.get? (cur + j) ≠ some START_TAG := by
          intro j hj
          cases hS : pyFind s START_TAG cur with
          | none => exact pyFind_none hS (cur + j) (by omega)
          | some st =>
            have hstveq : stv = st := by rw [hstv, hS]; rfl
            have hest : e ≤ st := by omega
            obtain ⟨_, hgst, hminS⟩ := pyFind_some hS
            exact hminS (cur + j) (by omega) (by omega)
        have hdecomp : s.drop cur =
            (s.drop cur).take (e - cur) ++ (END_TAG :: s.drop (e + 1)) := by
          conv_lhs => rw [← List.take_append_drop (e - cur) (s.drop cur)]
          congr 1
          rw [List.drop_drop]
          have h1 : cur + (e - cur) = e := by omega
          rw [h1, List.drop_eq_getElem_cons helen]
          congr 1
          have := List.get?_eq_getElem? s e
          rw [hgetE, List.getElem?_eq_getElem helen] at this
          exact (Option.some_injective _ this).symm
        have hseg : ∀ c ∈ (s.drop cur).take (e - cur),
            c ≠ START_TAG ∧ c ≠ END_TAG := by
          intro c hc
          obtain ⟨j, hj⟩ := List.mem_iff_get?.mp hc
          have hjlt : j < e - cur := by
            by_contra hge
            rw [List.get?_take_eq_none (by omega)] at hj
            exact Option.noConfusion hj
          rw [List.get?_take hjlt, List.get?_drop] at hj
          constructor
          · intro hcontra
            exact hNoOpen j hjlt (by rw [hj, hcontra])
          · intro hcontra
            exact hminE (cur + j) (by omega) (by omega) (by rw [hj, hcontra])
        have hsegl : ((s.drop cur).take (e - cur)).length = e - cur := by
          rw [List.length_take, List.length_drop]
          omega
        by_cases hd : d - 1 = 0
        · have hstep : metiStep s cur d = MetiStep.done (some e) := by
            simp only [metiStep, hE]
            rw [show (pyFind s START_TAG cur).getD s.length = stv from rfl]
            rw [if_neg hlt, if_pos hd]
          rw [metiRun, hstep]
          show some (some e) = _
          rw [hdecomp, scanL_append_free hseg, hsegl]
          rw [scanL]
          rw [if_neg (by decide : ¬ (END_TAG = START_TAG)), if_pos rfl, if_pos hd]
          simp
          omega
        · have hstep : metiStep s cur d = MetiStep.cont (e + 1) (d - 1) := by
            simp only [metiStep, hE]
            rw [show (pyFind s START_TAG cur).getD s.length = stv from rfl]
            rw [if_neg hlt, if_neg hd]
          rw [metiRun, hstep]
          show metiRun fuel s (e + 1) (d - 1) = _
          rw [ih s (e + 1) (d - 1) hfuel1 (by omega)]
          rw [hdecomp, scanL_append_free hseg, hsegl]
          rw [scanL]
          rw [if_neg (by decide : ¬ (END_TAG = START_TAG)), if_pos rfl, if_neg hd]
          cases hsc : scanL (s.drop (e + 1)) (d - 1) with
          | none => simp
          | some k => simp; omega

end BracketParser


namespace BracketParser

/-- The find-and-jump loop of the source computes exactly the match mandated
by the specification nesting scan. -/
theorem matching_end_tag_index_eq_spec (s : List Char) (i : Nat) :
    matching_end_tag_index s i = matchSpecIndex s i := by
  rw [matching_end_tag_index,
    metiRun_eq_scan (s.length + 1) s (i + 1) 1 (by omega) (by omega)]
  rfl

theorem matching_end_tag_index_some {s : List Char} {i e : Nat}
    (h : matching_end_tag_index s i = some e) :
    i < e ∧ e < s.length ∧ s.get? e = some END_TAG := by
  rw [matching_end_tag_index_eq_spec] at h
  simp only [matchSpecIndex, Option.map_eq_some'] at h
  obtain ⟨k, hk, rfl⟩ := h
  have hget := scanL_some hk
  rw [List.get?_drop] at hget
  have hlt : i + 1 + k < s.length := by
    have := (List.get?_eq_some.mp hget).1
    omega
  exact ⟨by omega, hlt, hget⟩

/-- Fuel-indexed model of the while loop of
BracketParser.is_valid_parse_string: find the matching end tag of the token
starting at start_tag_index; a missing match is invalid; a token ending
exactly at the end of the string is valid; otherwise the next token must
start exactly where this one ended.  The outer `none` is fuel exhaustion,
impossible for the fuel supplied by is_valid_parse_string. -/
def validRun : Nat → List Char → Nat → Option Bool
  | 0, _, _ => none
  | fuel + 1, s, start_tag_index =>
    match matching_end_tag_index s start_tag_index with
    | none => some false
    | some end_tag_index =>
      let expected_start_tag_index := end_tag_index + 1
      if s.length ≤ expected_start_tag_index then some true
      else if pyFind s START_TAG expected_start_tag_index =
          some expected_start_tag_index then
        validRun fuel s expected_start_tag_index
      else some false

/-- BracketParser.is_valid_parse_string: the empty string is valid; otherwise
the string must begin with a start tag and every token must begin exactly
where the previous token ended, with the last token ending at the end of the
string. -/
def is_valid_parse_string (parse_string : List Char) : Bool :=
  if parse_string.length = 0 then true
  else if pyFind parse_string START_TAG 0 ≠ some 0 then false
  else (validRun (parse_string.length + 1) parse_string 0).getD false

/-- Python slice s[a:b] for 0 ≤ a ≤ b. -/
def substr (s : List Char) (a b : Nat) : List Char :=
  (s.drop a).take (b - a)

/-- Fuel-indexed model of the token-extraction loop of BracketParser.parse:
while has_next_token() collect next_token().  has_next_token is false exactly
at the end of the string (the loop positions are never past the end); a
position not at a start tag or a token without a matching end tag raises,
modeled by the inner `none`.  next_token returns the text strictly between
the start tag and its matching end tag and moves just past the end tag. -/
def tokensRun : Nat → List Char → Nat → Option (Option (List (List Char)))
  | 0, _, _ => none
  | fuel + 1, s, current_position =>
    if s.length - current_position = 0 then some (some [])
    else if pyFind s START_TAG current_position ≠ some current_position then
      some none
    else
      match matching_end_tag_index s current_position with
      | none => some none
      | some end_tag_index =>
        match tokensRun fuel s (end_tag_index + 1) with
        | none => none
        | some none => some none
        | some (some tokens) =>
          some (some (substr s (current_position + 1) end_tag_index :: tokens))

/-- BracketParser.parse: validate with is_valid_parse_string (an invalid
string raises, modeled `none`), then split the string into its top-level
tokens. -/
def parse (string_to_parse : List Char) : Option (List (List Char)) :=
  if is_valid_parse_string string_to_parse then
    (tokensRun (string_to_parse.length + 1) string_to_parse 0).getD none
  else none

/-- Re-encoding of a token list: each token is wrapped in one start tag and
one end tag and the results are concatenated in order. -/
def encodeTokens : List (List Char) → List Char
  | [] => []
  | t :: ts => START_TAG :: (t ++ END_TAG :: encodeTokens ts)

/-- Balanced token content: the strings in which every closing delimiter
matches an earlier opening delimiter and every opening delimiter is closed,
with all other characters free.  Wrapping such content in one delimiter pair
gives exactly the tokens of the bracket wire format. -/
inductive Bal : List Char → Prop
  | nil : Bal []
  | free {c : Char} {t : List Char} :
      c ≠ START_TAG → c ≠ END_TAG → Bal t → Bal (c :: t)
  | wrap {b t : List Char} :
      Bal b → Bal t → Bal (START_TAG :: (b ++ END_TAG :: t))

/-- Specification-side characterization of valid parse strings: a possibly
empty concatenation of delimiter-wrapped balanced tokens, each starting
exactly where the previous one ended. -/
def ValidSpecString (s : List Char) : Prop :=
  ∃ tokens : List (List Char), (∀ t ∈ tokens, Bal t) ∧ s = encodeTokens tokens

end BracketParser

namespace BracketParser

/-- Scanning balanced content never closes the surrounding token: the scan
walks straight over it and resumes on the remainder at the same nesting
level. -/
theorem scanL_bal_append {b : List Char} (hb : Bal b) :
    ∀ (rest : List Char) (d : Int), 1 ≤ d →
      scanL (b ++ rest) d = (scanL rest d).map (b.length + ·) := by
  induction hb with
  | nil =>
    intro rest d _
    cases h : scanL rest d <;> simp [h]
  | free hc1 hc2 _ ih =>
    intro rest d hd
    rw [List.cons_append, scanL, if_neg hc1, if_neg hc2, ih rest d hd]
    cases h : scanL rest d with
    | none => simp [h]
    | some k => simp [h]; omega
  | wrap _ _ ihb iht =>
    rename_i bb tt _ _
    intro rest d hd
    have h1 : (START_TAG :: (bb ++ END_TAG :: tt)) ++ rest
        = START_TAG :: (bb ++ (END_TAG :: (tt ++ rest))) := by simp
    rw [h1, scanL, if_pos rfl, ihb (END_TAG :: (tt ++ rest)) (d + 1) (by omega)]
    rw [scanL, if_neg (by decide : ¬ (END_TAG = START_TAG)), if_pos rfl,
      if_neg (by omega : ¬ (d + 1 - 1 = 0))]
    rw [show d + 1 - 1 = d from by omega]
    rw [iht rest d hd]
    cases h : scanL rest d with
    | none => simp [h]
    | some k => simp [h]; omega

/-- A successful nesting scan at level d + 1 first splits off one balanced
segment and its closing delimiter, then continues as a scan at level d. -/
theorem scanL_split_succ :
    ∀ (n : Nat) (l : List Char) (k : Nat) (d : Int), l.length ≤ n → 1 ≤ d →
      scanL l (d + 1) = some k →
      ∃ (b r : List Char) (k' : Nat), l = b ++ END_TAG :: r ∧ Bal b ∧
        scanL r d = some k' ∧ k = b.length + 1 + k' := by
  intro n
  induction n with
  | zero =>
    intro l k d hl _ h
    cases l with
    | nil => simp [scanL] at h
    | cons a rest => simp at hl
  | succ n ih =>
    intro l k d hl hd h
    cases l with
    | nil => simp [scanL] at h
    | cons a rest =>
      have hrl : rest.length ≤ n := by simp at hl; omega
      by_cases h1 : a = START_TAG
      · subst h1
        rw [scanL, if_pos rfl] at h
        simp only [Option.map_eq_some'] at h
        obtain ⟨k1, hk1, hk⟩ := h
        obtain ⟨b1, r1, k1', hrest, hb1, hscan1, hkk1⟩ :=
          ih rest k1 (d + 1) hrl (by omega) hk1
        have hr1len : r1.length ≤ n := by
          have := congrArg List.length hrest
          simp at this
          omega
        obtain ⟨b2, r2, k2', hr1, hb2, hscan2, hkk2⟩ :=
          ih r1 k1' d hr1len hd hscan1
        refine ⟨START_TAG :: (b1 ++ END_TAG :: b2), r2, k2', ?_,
          Bal.wrap hb1 hb2, hscan2, ?_⟩
        · rw [hrest, hr1]
          simp
        · simp
          omega
      · by_cases h2 : a = END_TAG
        · subst h2
          rw [scanL, if_neg h1, if_pos rfl,
            if_neg (by omega : ¬ (d + 1 - 1 = 0)),
            show d + 1 - 1 = d from by omega] at h
          simp only [Option.map_eq_some'] at h
          obtain ⟨k1, hk1, hk⟩ := h
          exact ⟨[], rest, k1, by simp, Bal.nil, hk1, by simp; omega⟩
        · rw [scanL, if_neg h1, if_neg h2] at h
          simp only [Option.map_eq_some'] at h
          obtain ⟨k1, hk1, hk⟩ := h
          obtain ⟨b1, r1, k1', hrest, hb1, hscan1, hkk1⟩ :=
            ih rest k1 d hrl hd hk1
          refine ⟨a :: b1, r1, k1', ?_, Bal.free h1 h2 hb1, hscan1, ?_⟩
          · rw [hrest]; simp
          · simp
            omega

/-- A successful top-level nesting scan splits the string into one balanced
token content, its closing delimiter, and a remainder, with the match index
exactly at that closing delimiter. -/
theorem scanL_split_one :
    ∀ (n : Nat) (l : List Char) (k : Nat), l.length ≤ n →
      scanL l 1 = some k →
      ∃ b r, l = b ++ END_TAG :: r ∧ Bal b ∧ k = b.length := by
  intro n
  induction n with
  | zero =>
    intro l k hl h
    cases l with
    | nil => simp [scanL] at h
    | cons a rest => simp at hl
  | succ n ih =>
    intro l k hl h
    cases l with
    | nil => simp [scanL] at h
    | cons a rest =>
      have hrl : rest.length ≤ n := by simp at hl; omega
      by_cases h1 : a = START_TAG
      · subst h1
        rw [scanL, if_pos rfl] at h
        simp only [Option.map_eq_some'] at h
        obtain ⟨k1, hk1, hk⟩ := h
        obtain ⟨b1, r1, k1', hrest, hb1, hscan1, hkk1⟩ :=
          scanL_split_succ n rest k1 1 hrl le_rfl hk1
        have hr1len : r1.length ≤ n := by
          have := congrArg List.length hrest
          simp at this
          omega
        obtain ⟨b2, r2, hr1, hb2, hk2⟩ := ih r1 k1' hr1len hscan1
        refine ⟨START_TAG :: (b1 ++ END_TAG :: b2), r2, ?_, Bal.wrap hb1 hb2, ?_⟩
        · rw [hrest, hr1]
          simp
        · simp
          omega
      · by_cases h2 : a = END_TAG
        · subst h2
          rw [scanL, if_neg h1, if_pos rfl, if_pos (by omega : (1 : Int) - 1 = 0)] at h
          cases h
          exact ⟨[], rest, by simp, Bal.nil, rfl⟩
        · rw [scanL, if_neg h1, if_neg h2] at h
          simp only [Option.map_eq_some'] at h
          obtain ⟨k1, hk1, hk⟩ := h
          obtain ⟨b1, r1, hrest, hb1, hk1'⟩ := ih rest k1 hrl hk1
          refine ⟨a :: b1, r1, ?_, Bal.free h1 h2 hb1, ?_⟩
          · rw [hrest]; simp
          · simp
            omega

end BracketParser

namespace BracketParser

theorem drop_cons_of_get? {s : List Char} {i : Nat} {c : Char}
    (h : s.get? i = some c) : s.drop i = c :: s.drop (i + 1) := by
  have hlt : i < s.length := (List.get?_eq_some.mp h).1
  rw [List.drop_eq_getElem_cons hlt]
  congr 1
  have := List.get?_eq_getElem? s i
  rw [h, List.getElem?_eq_getElem hlt] at this
  exact (Option.some_injective _ this).symm

/-- Splitting the remainder of the string at a start tag and a later end tag:
the start tag, the slice strictly between the two tags, the end tag, and the
rest. -/
theorem drop_decompose {s : List Char} {a e : Nat}
    (ha : s.get? a = some START_TAG) (he : s.get? e = some END_TAG)
    (hae : a < e) :
    s.drop a = START_TAG :: (substr s (a + 1) e ++ END_TAG :: s.drop (e + 1)) := by
  rw [drop_cons_of_get? ha]
  congr 1
  rw [substr]
  conv_lhs => rw [← List.take_append_drop (e - (a + 1)) (s.drop (a + 1))]
  congr 1
  rw [List.drop_drop, show (a + 1) + (e - (a + 1)) = e from by omega]
  exact drop_cons_of_get? he

/-- Whatever token list the extraction loop returns re-encodes to exactly the
unconsumed remainder of the parse string. -/
theorem tokensRun_encode :
    ∀ (fuel : Nat) (s : List Char) (cur : Nat) (ts : List (List Char)),
      tokensRun fuel s cur = some (some ts) → encodeTokens ts = s.drop cur := by
  intro fuel
  induction fuel with
  | zero => intro s cur ts h; simp [tokensRun] at h
  | succ fuel ih =>
    intro s cur ts h
    rw [tokensRun] at h
    by_cases h0 : s.length - cur = 0
    · rw [if_pos h0] at h
      have hts : ts = [] := by simpa using h.symm
      subst hts
      rw [encodeTokens]
      exact (List.drop_eq_nil_iff_le.mpr (by omega)).symm
    · rw [if_neg h0] at h
      by_cases hstart : pyFind s START_TAG cur ≠ some cur
      · rw [if_pos hstart] at h
        simp at h
      · rw [if_neg hstart] at h
        push_neg at hstart
        cases hmeti : matching_end_tag_index s cur with
        | none => simp only [hmeti] at h; simp at h
        | some e =>
          simp only [hmeti] at h
          cases hrec : tokensRun fuel s (e + 1) with
          | none => simp only [hrec] at h; simp at h
          | some o =>
            cases o with
            | none => simp only [hrec] at h; simp at h
            | some ts' =>
              simp only [hrec] at h
              have hts : ts = substr s (cur + 1) e :: ts' := by simpa using h.symm
              subst hts
              obtain ⟨hce, hel, hgete⟩ := matching_end_tag_index_some hmeti
              have hgetc : s.get? cur = some START_TAG := (pyFind_some hstart).2.1
              rw [encodeTokens, ih s (e + 1) ts' hrec]
              rw [drop_decompose hgetc hgete hce]

/-- A string accepted by the validation loop is successfully split by the
token-extraction loop (no exception occurs). -/
theorem valid_to_tokens :
    ∀ (fuel : Nat) (s : List Char) (cur : Nat),
      cur ≤ s.length → s.length < fuel + cur →
      validRun fuel s cur = some true →
      pyFind s START_TAG cur = some cur →
      ∃ ts, tokensRun fuel s cur = some (some ts) := by
  intro fuel
  induction fuel with
  | zero => intro s cur h1 h2 _ _; omega
  | succ fuel ih =>
    intro s cur hcle hlen hvalid hstart
    simp only [validRun] at hvalid
    cases hmeti : matching_end_tag_index s cur with
    | none => simp only [hmeti] at hvalid; simp at hvalid
    | some e =>
      simp only [hmeti] at hvalid
      obtain ⟨hce, hel, hgete⟩ := matching_end_tag_index_some hmeti
      rw [tokensRun, if_neg (by omega : ¬ (s.length - cur = 0)),
        if_neg (not_not_intro hstart)]
      simp only [hmeti]
      by_cases hend : s.length ≤ e + 1
      · obtain ⟨f', rfl⟩ : ∃ f', fuel = f' + 1 := ⟨fuel - 1, by omega⟩
        rw [show tokensRun (f' + 1) s (e + 1) = some (some []) from by
          rw [tokensRun, if_pos (by omega : s.length - (e + 1) = 0)]]
        exact ⟨_, rfl⟩
      · rw [if_neg hend] at hvalid
        by_cases hstart2 : pyFind s START_TAG (e + 1) = some (e + 1)
        · rw [if_pos hstart2] at hvalid
          obtain ⟨ts', hts'⟩ := ih s (e + 1) (by omega) (by omega) hvalid hstart2
          rw [hts']
          exact ⟨_, rfl⟩
        · rw [if_neg hstart2] at hvalid
          simp at hvalid

end BracketParser

namespace BracketParser

/-- Completeness of the validation loop: a string it accepts from a start-tag
position decomposes into delimiter-wrapped balanced tokens. -/
theorem valid_run_to_blocks :
    ∀ (fuel : Nat) (s : List Char) (cur : Nat),
      s.get? cur = some START_TAG →
      validRun fuel s cur = some true →
      ∃ bs : List (List Char), (∀ b ∈ bs, Bal b) ∧
        s.drop cur = encodeTokens bs := by
  intro fuel
  induction fuel with
  | zero => intro s cur _ h; simp [validRun] at h
  | succ fuel ih =>
    intro s cur hget hvalid
    simp only [validRun] at hvalid
    cases hmeti : matching_end_tag_index s cur with
    | none => simp only [hmeti] at hvalid; simp at hvalid
    | some e =>
      simp only [hmeti] at hvalid
      have hspec := (matching_end_tag_index_eq_spec s cur).symm
      rw [hmeti] at hspec
      simp only [matchSpecIndex, Option.map_eq_some'] at hspec
      obtain ⟨k, hscan, hke⟩ := hspec
      obtain ⟨b, r, hsplit, hb, hkb⟩ :=
        scanL_split_one (s.drop (cur + 1)).length (s.drop (cur + 1)) k le_rfl hscan
      have hr : r = s.drop (e + 1) := by
        have h1 : (s.drop (cur + 1)).drop (b.length + 1) = r := by
          rw [hsplit,
            show b ++ END_TAG :: r = (b ++ [END_TAG]) ++ r from by simp,
            show b.length + 1 = (b ++ [END_TAG]).length from by simp]
          exact List.drop_left _ _
        rw [List.drop_drop,
          show (cur + 1) + (b.length + 1) = e + 1 from by omega] at h1
        exact h1.symm
      have hdrop : s.drop cur = START_TAG :: (b ++ END_TAG :: r) := by
        rw [drop_cons_of_get? hget, hsplit]
      by_cases hend : s.length ≤ e + 1
      · refine ⟨[b], ?_, ?_⟩
        · intro t ht; simp at ht; subst ht; exact hb
        · rw [hdrop, hr, List.drop_eq_nil_iff_le.mpr hend]
          simp [encodeTokens]
      · rw [if_neg hend] at hvalid
        by_cases hstart2 : pyFind s START_TAG (e + 1) = some (e + 1)
        · rw [if_pos hstart2] at hvalid
          have hget2 : s.get? (e + 1) = some START_TAG := (pyFind_some hstart2).2.1
          obtain ⟨bs', hbal', hdrop'⟩ := ih s (e + 1) hget2 hvalid
          refine ⟨b :: bs', ?_, ?_⟩
          · intro t ht
            rcases List.mem_cons.mp ht with h | h
            · subst h; exact hb
            · exact hbal' t h
          · rw [hdrop, hr, hdrop']
            simp [encodeTokens]
        · rw [if_neg hstart2] at hvalid
          simp at hvalid

/-- Soundness of the validation loop: a nonempty concatenation of
delimiter-wrapped balanced tokens starting at the current position is
accepted. -/
theorem valid_blocks_to_run :
    ∀ (bs : List (List Char)) (fuel : Nat) (s : List Char) (cur : Nat),
      bs ≠ [] → (∀ b ∈ bs, Bal b) →
      s.drop cur = encodeTokens bs →
      s.length < fuel + cur →
      validRun fuel s cur = some true := by
  intro bs
  induction bs with
  | nil => intro fuel s cur hne; exact absurd rfl hne
  | cons b bs' ih =>
    intro fuel s cur _ hbal hdrop hlen
    have hb : Bal b := hbal b (by simp)
    have hcur : cur < s.length := by
      by_contra hge
      rw [List.drop_eq_nil_iff_le.mpr (by omega)] at hdrop
      exact absurd hdrop.symm (by simp [encodeTokens])
    obtain ⟨f', rfl⟩ : ∃ f', fuel = f' + 1 := ⟨fuel - 1, by omega⟩
    have hdrop1 : s.drop (cur + 1) = b ++ END_TAG :: encodeTokens bs' := by
      have h1 := congrArg List.tail hdrop
      rw [List.tail_drop] at h1
      simpa [encodeTokens] using h1
    have hscan : scanL (s.drop (cur + 1)) 1 = some b.length := by
      rw [hdrop1, scanL_bal_append hb (END_TAG :: encodeTokens bs') 1 le_rfl]
      rw [scanL, if_neg (by decide : ¬ (END_TAG = START_TAG)), if_pos rfl,
        if_pos (by omega : (1 : Int) - 1 = 0)]
      simp
    have hmeti : matching_end_tag_index s cur = some (cur + 1 + b.length) := by
      rw [matching_end_tag_index_eq_spec, matchSpecIndex, hscan]
      rfl
    simp only [validRun, hmeti]
    have hdropexp : s.drop (cur + 1 + b.length + 1) = encodeTokens bs' := by
      have h1 : (s.drop (cur + 1)).drop (b.length + 1) = encodeTokens bs' := by
        rw [hdrop1,
          show b ++ END_TAG :: encodeTokens bs'
            = (b ++ [END_TAG]) ++ encodeTokens bs' from by simp,
          show b.length + 1 = (b ++ [END_TAG]).length from by simp]
        exact List.drop_left _ _
      rw [List.drop_drop,
        show (cur + 1) + (b.length + 1) = cur + 1 + b.length + 1 from by omega] at h1
      exact h1
    cases bs' with
    | nil =>
      rw [if_pos (List.drop_eq_nil_iff_le.mp
        (by rw [hdropexp]; rfl))]
    | cons b'' rest'' =>
      have hget2 : s.get? (cur + 1 + b.length + 1) = some START_TAG := by
        have h0 : (s.drop (cur + 1 + b.length + 1)).get? 0 = some START_TAG := by
          rw [hdropexp]; simp [encodeTokens]
        rw [List.get?_drop] at h0
        simpa using h0
      have hlt2 : cur + 1 + b.length + 1 < s.length := (List.get?_eq_some.mp hget2).1
      rw [if_neg (by omega), if_pos (pyFind_self hget2)]
      exact ih f' s (cur + 1 + b.length + 1) (by simp)
        (fun t ht => hbal t (by simp [ht])) hdropexp (by omega)

end BracketParser

open BracketParser

/-- C1: for every string and every index holding the opening delimiter,
matching_end_tag_index returns exactly the closing-delimiter index selected by
the specification nesting scan (level 1 just past the opening delimiter, +1 on
an opening delimiter, -1 on a closing delimiter, first zero wins; `none`
models the -1 returned when no balancing closing delimiter exists); in
particular on "[[X]]" from position 0 it returns 4, not 2. -/
theorem claim_C1_matching_end_tag_index_correct :
    (∀ (s : List Char) (i : Nat), s.get? i = some START_TAG →
      matching_end_tag_index s i = matchSpecIndex s i) ∧
    matching_end_tag_index "[[X]]".toList 0 = some 4 ∧
    matching_end_tag_index "[[X]]".toList 0 ≠ some 2 := by
  refine ⟨fun s i _ => matching_end_tag_index_eq_spec s i, by decide, by decide⟩

/-- Witness for C1 at the concrete input "[[X]]", position 0. -/
theorem claim_C1_witness :
    "[[X]]".toList.get? 0 = some START_TAG ∧
    matching_end_tag_index "[[X]]".toList 0 = matchSpecIndex "[[X]]".toList 0 :=
  ⟨by decide, claim_C1_matching_end_tag_index_correct.1 "[[X]]".toList 0 (by decide)⟩

/-- C2: tokenizing a well-formed bracket string and re-encoding the token
list (each token wrapped in one opening and one closing delimiter, in order)
returns the original string. -/
theorem claim_C2_parse_encode_round_trip :
    ∀ s : List Char, is_valid_parse_string s = true →
      ∃ ts, parse s = some ts ∧ encodeTokens ts = s := by
  intro s hvalid
  rw [is_valid_parse_string] at hvalid
  by_cases h0 : s.length = 0
  · have hs : s = [] := List.length_eq_zero.mp h0
    subst hs
    exact ⟨[], rfl, rfl⟩
  · rw [if_neg h0] at hvalid
    by_cases hstart : pyFind s START_TAG 0 ≠ some 0
    · rw [if_pos hstart] at hvalid
      exact absurd hvalid (by simp)
    · rw [if_neg hstart] at hvalid
      push_neg at hstart
      have hrun : validRun (s.length + 1) s 0 = some true := by
        cases hv : validRun (s.length + 1) s 0 with
        | none => rw [hv] at hvalid; simp at hvalid
        | some b => rw [hv] at hvalid; simp at hvalid; rw [hvalid]
      obtain ⟨ts, hts⟩ := valid_to_tokens (s.length + 1) s 0 (by omega) (by omega)
        hrun hstart
      refine ⟨ts, ?_, ?_⟩
      · rw [parse, if_pos ?hval, hts]
        · rfl
        case hval =>
          rw [is_valid_parse_string, if_neg h0, if_neg (not_not_intro hstart), hrun]
          rfl
      · have := tokensRun_encode (s.length + 1) s 0 ts hts
        simpa using this

/-- Witness for C2 at the concrete input "[A][[B1][B2]]". -/
theorem claim_C2_witness :
    is_valid_parse_string "[A][[B1][B2]]".toList = true ∧
    ∃ ts, parse "[A][[B1][B2]]".toList = some ts ∧
      encodeTokens ts = "[A][[B1][B2]]".toList :=
  ⟨by decide, claim_C2_parse_encode_round_trip "[A][[B1][B2]]".toList (by decide)⟩

/-- C7: is_valid_parse_string accepts exactly the possibly empty
concatenations of delimiter-wrapped balanced tokens, each starting exactly
where the previous one ended with no gaps or extra characters (so a nonempty
valid string begins with an opening delimiter); in particular it accepts "",
"[A]" and "[A][B]" and rejects "[A][B]extra" and "A]". -/
theorem claim_C7_is_valid_characterization :
    (∀ s : List Char, is_valid_parse_string s = true ↔ ValidSpecString s) ∧
    is_valid_parse_string "".toList = true ∧
    is_valid_parse_string "[A]".toList = true ∧
    is_valid_parse_string "[A][B]".toList = true ∧
    is_valid_parse_string "[A][B]extra".toList = false ∧
    is_valid_parse_string "A]".toList = false := by
  refine ⟨?_, by decide, by decide, by decide, by decide, by decide⟩
  intro s
  constructor
  · intro hvalid
    rw [is_valid_parse_string] at hvalid
    by_cases h0 : s.length = 0
    · exact ⟨[], by simp, by simp [List.length_eq_zero.mp h0, encodeTokens]⟩
    · rw [if_neg h0] at hvalid
      by_cases hstart : pyFind s START_TAG 0 ≠ some 0
      · rw [if_pos hstart] at hvalid
        exact absurd hvalid (by simp)
      · rw [if_neg hstart] at hvalid
        push_neg at hstart
        have hrun : validRun (s.length + 1) s 0 = some true := by
          cases hv : validRun (s.length + 1) s 0 with
          | none => rw [hv] at hvalid; simp at hvalid
          | some b => rw [hv] at hvalid; simp at hvalid; rw [hvalid]
        obtain ⟨bs, hbal, hdrop⟩ := valid_run_to_blocks (s.length + 1) s 0
          (pyFind_some hstart).2.1 hrun
        exact ⟨bs, hbal, by simpa using hdrop⟩
  · rintro ⟨bs, hbal, rfl⟩
    cases bs with
    | nil => rfl
    | cons b bs' =>
      have hget0 : (encodeTokens (b :: bs')).get? 0 = some START_TAG := by
        simp [encodeTokens]
      have hlen : (encodeTokens (b :: bs')).length ≠ 0 := by
        simp [encodeTokens]
      rw [is_valid_parse_string, if_neg hlen,
        if_neg (not_not_intro (pyFind_self hget0))]
      rw [valid_blocks_to_run (b :: bs') ((encodeTokens (b :: bs')).length + 1)
        (encodeTokens (b :: bs')) 0 (by simp) hbal (by simp) (by omega)]
      rfl

/-- C10: the scan loop of matching_end_tag_index terminates on every input:
every iteration either returns or strictly increases the current scan index,
and the loop run with fuel s.length + 1 always completes, delivering the
function value (a match index or the -1 result, modeled none). -/
theorem claim_C10_matching_loop_terminates :
    (∀ (s : List Char) (cur : Nat) (d : Int) (cur' : Nat) (d' : Int),
      metiStep s cur d = MetiStep.cont cur' d' → cur < cur') ∧
    (∀ (s : List Char) (i : Nat),
      metiRun (s.length + 1) s (i + 1) 1 = some (matching_end_tag_index s i)) := by
  constructor
  · intro s cur d cur' d' h
    simp only [metiStep] at h
    cases hE : pyFind s END_TAG cur with
    | none => rw [hE] at h; exact MetiStep.noConfusion h
    | some e =>
      rw [hE] at h
      obtain ⟨hce, hgete, _⟩ := pyFind_some hE
      have helen : e < s.length := (List.get?_eq_some.mp hgete).1
      simp only [] at h
      by_cases hlt : (pyFind s START_TAG cur).getD s.length < e
      · rw [if_pos hlt] at h
        injection h with h1 h2
        cases hS : pyFind s START_TAG cur with
        | none => rw [hS] at hlt; simp at hlt; omega
        | some st =>
          have := (pyFind_some hS).1
          rw [hS] at h1
          simp at h1
          omega
      · rw [if_neg hlt] at h
        by_cases hd : d - 1 = 0
        · rw [if_pos hd] at h
          exact MetiStep.noConfusion h
        · rw [if_neg hd] at h
          injection h with h1 h2
          omega
  · intro s i
    rw [metiRun_eq_scan (s.length + 1) s (i + 1) 1 (by omega) (by omega)]
    rw [matching_end_tag_index,
      metiRun_eq_scan (s.length + 1) s (i + 1) 1 (by omega) (by omega)]
    rfl

/-- Witness for C10: a concrete continuing step strictly increases the index,
and the fueled loop run on "[[X]]" from position 0 completes with the
function value. -/
theorem claim_C10_witness :
    (metiStep "[[X]]".toList 1 1 = MetiStep.cont 2 2 → (1 : Nat) < 2) ∧
    metiRun ("[[X]]".toList.length + 1) "[[X]]".toList (0 + 1) 1
      = some (matching_end_tag_index "[[X]]".toList 0) :=
  ⟨fun h => claim_C10_matching_loop_terminates.1 "[[X]]".toList 1 1 2 2 h,
    claim_C10_matching_loop_terminates.2 "[[X]]".toList 0⟩

namespace RamConcept

open BracketParser

/-- Model of the Python float values the client code distinguishes:
sys.float_info.max (the largest-magnitude representable finite positive
float), its negation, and ordinary parsed literals, whose numeric value never
influences any modeled control flow and is therefore carried as the source
literal. -/
inductive PyFloat where
  | finite_max
  | neg_finite_max
  | lit (literal : List Char)
deriving DecidableEq

/-- utilities._user_str_to_API_float: the sentinel token "infinite" maps to
sys.float_info.max and "-infinite" to its negation; every other token is
handed to the float constructor. -/
def _user_str_to_API_float (value : List Char) : PyFloat :=
  if value = "infinite".toList then .finite_max
  else if value = "-infinite".toList then .neg_finite_max
  else .lit value

/-- utilities._API_float_to_user_str: float_info.max renders as "infinite"
and its negation as "-infinite"; the decimal rendering str(float) of other
values is abstracted as the carried literal. -/
def _API_float_to_user_str : PyFloat → List Char
  | .finite_max => "infinite".toList
  | .neg_finite_max => "-infinite".toList
  | .lit literal => literal

/-- utilities._API_int_to_user_str: decimal rendering of the integer. -/
def _API_int_to_user_str (value : Int) : List Char := (toString value).toList

/-- utilities._API_bool_to_user_str: the canonical Python renderings. -/
def _API_bool_to_user_str (value : Bool) : List Char :=
  if value then "True".toList else "False".toList

/-- BracketParser.parse_floats: parse the bracket string, then convert every
token with _user_str_to_API_float, in order. -/
def parse_floats (string_to_parse : List Char) : Option (List PyFloat) :=
  (parse string_to_parse).map (List.map _user_str_to_API_float)

/-- The two failure shapes of Concept._command: the FAILURE envelope carries
the inner payload (raised as Exception with message "Error: " and the
payload), and any unrecognized response is raised as Exception with a message
embedding the whole raw response. -/
inductive ConceptCommandError where
  | remoteError (payload : List Char)
  | internalError (message : List Char)
deriving DecidableEq

def SUCCESS_MARK : List Char := "[SUCCESS][".toList

def FAILURE_MARK : List Char := "[FAILURE][".toList

def INTERNAL_ERROR_TEXT : List Char :=
  "Internal Error: Invalid result returned from Concept process: ".toList

/-- The response-classification tail of Concept._command: the first ten
characters of the response select the outcome, and the payload of a
recognized envelope is the response without those ten characters and without
its final character (the Python slice result[10:-1]). -/
def command_response (result : List Char) : Except ConceptCommandError (List Char) :=
  if result.take 10 = SUCCESS_MARK then .ok ((result.drop 10).dropLast)
  else if result.take 10 = FAILURE_MARK then
    .error (.remoteError ((result.drop 10).dropLast))
  else .error (.internalError (INTERNAL_ERROR_TEXT ++ result))

/-- The exception families that the Data property layer raises (the source
raises plain Exception values; the constructor identifies the message family
and carries the varying part where a claim mentions it). -/
inductive DataError where
  | readOnlyError
  | invalidValueError
  | wrongTypeError
  | crossModelError
  | noneNotAllowedError
  | nonCustomStiffnessError
  | unexpectedBoolError (bool_string : List Char)
deriving DecidableEq

/-- Data._get_bool_property, parameterized by the raw internal string the
GET_PROP_INTERNAL round trip returned.  Python str.lower is modeled by
Char.toLower; the protocol strings are ASCII, where the two agree. -/
def get_bool_property_of_raw (bool_string : List Char) : Except DataError Bool :=
  if bool_string.map Char.toLower = "true".toList then .ok true
  else if bool_string.map Char.toLower = "false".toList then .ok false
  else .error (.unexpectedBoolError bool_string)

/-- Client-side state of one Data object together with the transcript of
commands handed to the transport, in order. -/
structure DataState where
  read_only : Bool
  sent : List (List Char)
deriving DecidableEq

/-- Data._command: the command string goes to the transport.  Setters ignore
the response, so responses are not modeled. -/
def data_command (cmd : List Char) (st : DataState) : DataState :=
  { st with sent := st.sent ++ [cmd] }

/-- utilities._raise_if_invalid_string_property_value: a value holding either
delimiter raises. -/
def raise_if_invalid_string_property_value (value : List Char) :
    Except DataError Unit :=
  if START_TAG ∈ value then .error .invalidValueError
  else if END_TAG ∈ value then .error .invalidValueError
  else .ok ()

inductive PropertyUnits where
  | internal
  | user
deriving DecidableEq

/-- The SET_PROP command string built by Data._set_property. -/
def set_property_command (property_name value : List Char)
    (units : PropertyUnits) : List Char :=
  "[".toList
    ++ (if units = .internal then "SET_PROP_INTERNAL".toList
        else "SET_PROP_USER".toList)
    ++ "][".toList ++ property_name ++ "][".toList ++ value ++ "]".toList

/-- Data._set_property: the delimiter validation runs at this lowest level,
through which all property setting goes, before the command is built and
transmitted. -/
def set_property (property_name value : List Char) (units : PropertyUnits)
    (st : DataState) : Except DataError Unit × DataState :=
  match raise_if_invalid_string_property_value value with
  | .error e => (.error e, st)
  | .ok _ =>
    (.ok (), data_command (set_property_command property_name value units) st)

/-- Data._set_string_property. -/
def set_string_property (property_name value : List Char) (st : DataState) :
    Except DataError Unit × DataState :=
  set_property property_name value .internal st

/-- Data._set_float_property. -/
def set_float_property (property_name : List Char) (value : PyFloat)
    (st : DataState) : Except DataError Unit × DataState :=
  set_property property_name (_API_float_to_user_str value) .user st

/-- Data._set_int_property. -/
def set_int_property (property_name : List Char) (value : Int)
    (st : DataState) : Except DataError Unit × DataState :=
  set_property property_name (_API_int_to_user_str value) .internal st

/-- Data._set_bool_property. -/
def set_bool_property (property_name : List Char) (value : Bool)
    (st : DataState) : Except DataError Unit × DataState :=
  set_property property_name (_API_bool_to_user_str value) .internal st

/-- A reference to a server-side Data object: its uid string and the model it
belongs to. -/
structure DataRef where
  uid : List Char
  modelId : Nat
deriving DecidableEq

/-- Data._set_data_property: uid "0" encodes None; a non-None value must be
an instance of the required class (the isinstance outcome is the
required_class_ok argument) and belong to the same model. -/
def set_data_property (property_name : List Char) (required_class_ok : Bool)
    (self_modelId : Nat) (value : Option DataRef) (st : DataState) :
    Except DataError Unit × DataState :=
  match value with
  | none => set_property property_name "0".toList .internal st
  | some v =>
    if ¬ required_class_ok then (.error .wrongTypeError, st)
    else if v.modelId ≠ self_modelId then (.error .crossModelError, st)
    else set_property property_name v.uid .internal st

/-- A Point2D value as the setter consumes it: the runtime type check of the
source is discharged by typing, and to_bracket_string() output is carried by
the value (its coordinate formatting is irrelevant to every modeled claim). -/
structure Point2D where
  bracket_string : List Char
deriving DecidableEq

/-- Data._set_point2D_property. -/
def set_point2D_property (property_name : List Char) (value : Point2D)
    (st : DataState) : Except DataError Unit × DataState :=
  set_property property_name value.bracket_string .user st

/-- Data._set_property_raise_if_read_only. -/
def set_property_raise_if_read_only (st : DataState) : Except DataError Unit :=
  if st.read_only then .error .readOnlyError else .ok ()

end RamConcept

namespace RamConcept

open BracketParser

/-- Setter synthesized by add_property._string_property: check the read-only
flag, then write the string property. -/
def string_property_setter (name value : List Char) (st : DataState) :
    Except DataError Unit × DataState :=
  match set_property_raise_if_read_only st with
  | .error e => (.error e, st)
  | .ok _ => set_string_property name value st

/-- Setter synthesized by add_property._float_property. -/
def float_property_setter (name : List Char) (value : PyFloat)
    (st : DataState) : Except DataError Unit × DataState :=
  match set_property_raise_if_read_only st with
  | .error e => (.error e, st)
  | .ok _ => set_float_property name value st

/-- Setter synthesized by add_property._int_property. -/
def int_property_setter (name : List Char) (value : Int) (st : DataState) :
    Except DataError Unit × DataState :=
  match set_property_raise_if_read_only st with
  | .error e => (.error e, st)
  | .ok _ => set_int_property name value st

/-- Setter synthesized by add_property._bool_property. -/
def bool_property_setter (name : List Char) (value : Bool) (st : DataState) :
    Except DataError Unit × DataState :=
  match set_property_raise_if_read_only st with
  | .error e => (.error e, st)
  | .ok _ => set_bool_property name value st

/-- Setter synthesized by add_property._bool_string_property: the bool value
selects one of the two caller-supplied sentinel strings (the bool(value)
coercion of the source cannot fail and is discharged by typing). -/
def bool_string_property_setter (name true_value false_value : List Char)
    (value : Bool) (st : DataState) : Except DataError Unit × DataState :=
  match set_property_raise_if_read_only st with
  | .error e => (.error e, st)
  | .ok _ =>
    if value then set_string_property name true_value st
    else set_string_property name false_value st

/-- Setter synthesized by add_property._enum_string_property, parameterized
by the enum's _to_internal conversion. -/
def enum_string_property_setter {α : Type} (name : List Char)
    (to_internal : α → List Char) (value : α) (st : DataState) :
    Except DataError Unit × DataState :=
  match set_property_raise_if_read_only st with
  | .error e => (.error e, st)
  | .ok _ => set_string_property name (to_internal value) st

/-- Setter synthesized by add_property._enum_int_property, parameterized by
the enum's _to_internal conversion. -/
def enum_int_property_setter {α : Type} (name : List Char)
    (to_internal : α → Int) (value : α) (st : DataState) :
    Except DataError Unit × DataState :=
  match set_property_raise_if_read_only st with
  | .error e => (.error e, st)
  | .ok _ => set_int_property name (to_internal value) st

/-- Setter synthesized by add_property._data_property. -/
def data_property_setter (name : List Char) (required_class_ok : Bool)
    (self_modelId : Nat) (value : Option DataRef) (st : DataState) :
    Except DataError Unit × DataState :=
  match set_property_raise_if_read_only st with
  | .error e => (.error e, st)
  | .ok _ => set_data_property name required_class_ok self_modelId value st

/-- Setter synthesized by add_property._no_none_data_property. -/
def no_none_data_property_setter (name : List Char) (required_class_ok : Bool)
    (self_modelId : Nat) (value : Option DataRef) (st : DataState) :
    Except DataError Unit × DataState :=
  match set_property_raise_if_read_only st with
  | .error e => (.error e, st)
  | .ok _ =>
    match value with
    | none => (.error .noneNotAllowedError, st)
    | some v => set_data_property name required_class_ok self_modelId (some v) st

/-- Setter synthesized by add_property._stiffness_property. -/
def stiffness_property_setter (name : List Char) (value : PyFloat)
    (has_custom_stiffness_behavior : Bool) (st : DataState) :
    Except DataError Unit × DataState :=
  match set_property_raise_if_read_only st with
  | .error e => (.error e, st)
  | .ok _ =>
    if has_custom_stiffness_behavior then set_float_property name value st
    else (.error .nonCustomStiffnessError, st)

/-- Setter synthesized by add_property._point_property.  Its body calls
_set_point2D_property directly: unlike every other setter of add_property.py
it does not call _set_property_raise_if_read_only first, and no read-only
check exists further down the _set_property path. -/
def point_property_setter (name : List Char) (value : Point2D)
    (st : DataState) : Except DataError Unit × DataState :=
  set_point2D_property name value st

end RamConcept

namespace RamConcept

/-- State of the remote process as the bulk operations see it: the uids of
the existing entities, and the next uid the process will allocate. -/
structure ServerState where
  entities : List Nat
  next_uid : Nat
deriving DecidableEq

/-- One NEW_ENTITY_USER round trip (CadLayer._add_cad_entity): the process
allocates a fresh uid and records the entity. -/
def create_entity (st : ServerState) : Nat × ServerState :=
  (st.next_uid,
    { entities := st.entities ++ [st.next_uid], next_uid := st.next_uid + 1 })

/-- One CadEntity.delete round trip: the process removes the entity with the
given uid. -/
def delete_entity (uid : Nat) (st : ServerState) : ServerState :=
  { st with entities := st.entities.filter (fun u => u ≠ uid) }

/-- The compensating loop of the except blocks: delete every listed entity,
in order. -/
def delete_all (created : List Nat) (st : ServerState) : ServerState :=
  created.foldl (fun s u => delete_entity u s) st

/-- The loop of CadLayer._bulk_add over the location indexes: each iteration
either raises (injected by the add_fails schedule, in which case every entity
created so far in the batch is deleted and the error propagates) or creates
one entity and appends it to the accumulator. -/
def bulk_add_go (add_fails : Nat → Bool) :
    List Nat → List Nat → ServerState → Except Unit (List Nat) × ServerState
  | [], created, st => (.ok created, st)
  | i :: rest, created, st =>
    if add_fails i then (.error (), delete_all created st)
    else
      bulk_add_go add_fails rest (created ++ [(create_entity st).fst])
        (create_entity st).snd

/-- CadLayer._bulk_add over location_count locations (the locations
themselves never influence the modeled state; the failure of the i-th
individual addition is injected by the schedule). -/
def bulk_add (add_fails : Nat → Bool) (location_count : Nat)
    (st : ServerState) : Except Unit (List Nat) × ServerState :=
  bulk_add_go add_fails (List.range location_count) [] st

/-- The assignment loop of utilities._bulk_set: the i-th setattr may raise
(injected by the schedule); property values do not change the modeled entity
list. -/
def bulk_set_go (set_fails : Nat → Bool) : List Nat → Nat → Except Unit Unit
  | [], _ => .ok ()
  | _ :: rest, i =>
    if set_fails i then .error () else bulk_set_go set_fails rest (i + 1)

/-- utilities._bulk_set: a None value list sets nothing and raises nothing; a
length mismatch raises; otherwise each entity's property is assigned in
order. -/
def bulk_set (set_fails : Nat → Bool) (entities : List Nat)
    (values : Option (List PyFloat)) : Except Unit Unit :=
  match values with
  | none => .ok ()
  | some vs =>
    if entities.length ≠ vs.length then .error ()
    else bulk_set_go set_fails entities 0

/-- The Python idiom values or zero_list: None and the empty list are falsy
and replaced by the zero list. -/
def or_zero_list (values : Option (List PyFloat)) (zero_list : List PyFloat) :
    List PyFloat :=
  match values with
  | none => zero_list
  | some [] => zero_list
  | some vs => vs

/-- The six _bulk_set calls of add_point_loads, in source order; the failure
schedule is indexed by the call position and the entity position. -/
def run_value_sets (set_fails : Nat → Nat → Bool) (point_loads : List Nat) :
    List (Option (List PyFloat)) → Nat → Except Unit Unit
  | [], _ => .ok ()
  | v :: rest, p =>
    match bulk_set (set_fails p) point_loads v with
    | .error e => .error e
    | .ok _ => run_value_sets set_fails point_loads rest (p + 1)

/-- ForceLoadingLayer.add_point_loads: read-only check, x/y length check,
bulk addition of the point loads (with its own compensation), then the six
value assignments; if any assignment raises, every point load of the batch is
deleted and the error propagates. -/
def add_point_loads (layer_read_only : Bool) (add_fails : Nat → Bool)
    (set_fails : Nat → Nat → Bool) (x_count y_count : Nat)
    (elevation Fx Fy Fz Mx My : Option (List PyFloat)) (st : ServerState) :
    Except Unit (List Nat) × ServerState :=
  if layer_read_only then (.error (), st)
  else if y_count ≠ x_count then (.error (), st)
  else
    match bulk_add add_fails x_count st with
    | (.error e, st1) => (.error e, st1)
    | (.ok point_loads, st1) =>
      match run_value_sets set_fails point_loads
          [elevation,
           some (or_zero_list Fx (List.replicate x_count (.lit "0.0".toList))),
           some (or_zero_list Fy (List.replicate x_count (.lit "0.0".toList))),
           some (or_zero_list Fz (List.replicate x_count (.lit "0.0".toList))),
           some (or_zero_list Mx (List.replicate x_count (.lit "0.0".toList))),
           some (or_zero_list My (List.replicate x_count (.lit "0.0".toList)))] 0 with
      | .ok _ => (.ok point_loads, st1)
      | .error _ => (.error (), delete_all point_loads st1)

end RamConcept

namespace RamConcept

theorem delete_all_entities :
    ∀ (created : List Nat) (st : ServerState),
      (delete_all created st).entities
        = st.entities.filter (fun u => decide (u ∉ created)) := by
  intro created
  induction created with
  | nil => intro st; simp [delete_all]
  | cons c cs ih =>
    intro st
    have h1 : delete_all (c :: cs) st = delete_all cs (delete_entity c st) := rfl
    rw [h1, ih]
    simp only [delete_entity, List.filter_filter]
    apply List.filter_congr
    intro u _
    by_cases hc : u = c <;> simp [hc]

/-- If the addition loop raises, the state it leaves behind holds exactly the
entities that existed on entry and were not part of the accumulated batch. -/
theorem bulk_add_go_error (add_fails : Nat → Bool) :
    ∀ (idxs created : List Nat) (st : ServerState) (e : Unit) (st' : ServerState),
      (∀ u ∈ st.entities, u < st.next_uid) →
      bulk_add_go add_fails idxs created st = (.error e, st') →
      st'.entities = st.entities.filter (fun u => decide (u ∉ created)) := by
  intro idxs
  induction idxs with
  | nil =>
    intro created st e st' _ h
    simp [bulk_add_go] at h
  | cons i rest ih =>
    intro created st e st' hinv h
    rw [bulk_add_go] at h
    by_cases hf : add_fails i
    · rw [if_pos hf] at h
      have hst' : st' = delete_all created st := by
        have := congrArg Prod.snd h
        simpa using this.symm
      rw [hst', delete_all_entities]
    · rw [if_neg hf] at h
      have hinv1 : ∀ u ∈ (create_entity st).snd.entities,
          u < (create_entity st).snd.next_uid := by
        simp only [create_entity]
        intro u hu
        rcases List.mem_append.mp hu with h1 | h1
        · have := hinv u h1; omega
        · simp at h1; omega
      have hrec := ih (created ++ [(create_entity st).fst])
        (create_entity st).snd e st' hinv1 h
      rw [hrec]
      simp only [create_entity, List.filter_append]
      have h2 : [st.next_uid].filter
          (fun u => decide (u ∉ created ++ [st.next_uid])) = [] := by
        simp
      rw [h2, List.append_nil]
      apply List.filter_congr
      intro u hu
      have hlt : u < st.next_uid := hinv u hu
      have hne : u ≠ st.next_uid := by omega
      simp [List.mem_append, hne]

/-- If the addition loop succeeds, the new state is the old one extended by
the newly created entities, whose uids are all fresh. -/
theorem bulk_add_go_ok (add_fails : Nat → Bool) :
    ∀ (idxs created : List Nat) (st : ServerState) (res : List Nat)
      (st' : ServerState),
      (∀ u ∈ st.entities, u < st.next_uid) →
      bulk_add_go add_fails idxs created st = (.ok res, st') →
      ∃ newly : List Nat, res = created ++ newly ∧
        st'.entities = st.entities ++ newly ∧
        (∀ u ∈ newly, st.next_uid ≤ u) := by
  intro idxs
  induction idxs with
  | nil =>
    intro created st res st' _ h
    simp [bulk_add_go] at h
    exact ⟨[], by simp [h.1.symm], by simp [h.2.symm], by simp⟩
  | cons i rest ih =>
    intro created st res st' hinv h
    rw [bulk_add_go] at h
    by_cases hf : add_fails i
    · rw [if_pos hf] at h
      simp at h
    · rw [if_neg hf] at h
      have hinv1 : ∀ u ∈ (create_entity st).snd.entities,
          u < (create_entity st).snd.next_uid := by
        simp only [create_entity]
        intro u hu
        rcases List.mem_append.mp hu with h1 | h1
        · have := hinv u h1; omega
        · simp at h1; omega
      obtain ⟨newly', hres, hents, hfresh⟩ := ih (created ++ [(create_entity st).fst])
        (create_entity st).snd res st' hinv1 h
      refine ⟨st.next_uid :: newly', ?_, ?_, ?_⟩
      · rw [hres]; simp [create_entity]
      · rw [hents]; simp [create_entity]
      · intro u hu
        rcases List.mem_cons.mp hu with h1 | h1
        · omega
        · have := hfresh u h1
          simp [create_entity] at this
          omega

end RamConcept

namespace RamConcept

theorem raise_if_invalid_error {value : List Char} {e : DataError}
    (h : raise_if_invalid_string_property_value value = .error e) :
    e = .invalidValueError := by
  rw [raise_if_invalid_string_property_value] at h
  by_cases h1 : BracketParser.START_TAG ∈ value
  · rw [if_pos h1] at h
    injection h with h2
    exact h2.symm
  · rw [if_neg h1] at h
    by_cases h2 : BracketParser.END_TAG ∈ value
    · rw [if_pos h2] at h
      injection h with h3
      exact h3.symm
    · rw [if_neg h2] at h
      exact Except.noConfusion h

end RamConcept

open RamConcept

/-- C3 (amended): every property setter synthesized by add_property.py other
than the point-property setter first checks the read-only flag of the owning
entity and fails with the ReadOnlyError family with nothing transmitted (the
returned state, transcript included, is exactly the input state); the
point-property setter performs no read-only check and can never produce
ReadOnlyError.  The check is repeated per setter rather than centralized in
Data._set_property, which is how the point setter escapes it. -/
theorem claim_C3_read_only_enforcement :
    (∀ (name value : List Char) (st : DataState), st.read_only = true →
      string_property_setter name value st = (.error .readOnlyError, st)) ∧
    (∀ (name : List Char) (value : PyFloat) (st : DataState),
      st.read_only = true →
      float_property_setter name value st = (.error .readOnlyError, st)) ∧
    (∀ (name : List Char) (value : Int) (st : DataState), st.read_only = true →
      int_property_setter name value st = (.error .readOnlyError, st)) ∧
    (∀ (name : List Char) (value : Bool) (st : DataState), st.read_only = true →
      bool_property_setter name value st = (.error .readOnlyError, st)) ∧
    (∀ (name true_value false_value : List Char) (value : Bool)
      (st : DataState), st.read_only = true →
      bool_string_property_setter name true_value false_value value st
        = (.error .readOnlyError, st)) ∧
    (∀ (α : Type) (name : List Char) (to_internal : α → List Char) (value : α)
      (st : DataState), st.read_only = true →
      enum_string_property_setter name to_internal value st
        = (.error .readOnlyError, st)) ∧
    (∀ (α : Type) (name : List Char) (to_internal : α → Int) (value : α)
      (st : DataState), st.read_only = true →
      enum_int_property_setter name to_internal value st
        = (.error .readOnlyError, st)) ∧
    (∀ (name : List Char) (required_class_ok : Bool) (self_modelId : Nat)
      (value : Option DataRef) (st : DataState), st.read_only = true →
      data_property_setter name required_class_ok self_modelId value st
        = (.error .readOnlyError, st)) ∧
    (∀ (name : List Char) (required_class_ok : Bool) (self_modelId : Nat)
      (value : Option DataRef) (st : DataState), st.read_only = true →
      no_none_data_property_setter name required_class_ok self_modelId value st
        = (.error .readOnlyError, st)) ∧
    (∀ (name : List Char) (value : PyFloat)
      (has_custom_stiffness_behavior : Bool) (st : DataState),
      st.read_only = true →
      stiffness_property_setter name value has_custom_stiffness_behavior st
        = (.error .readOnlyError, st)) ∧
    (∀ (name : List Char) (value : Point2D) (st : DataState),
      (point_property_setter name value st).fst
        ≠ Except.error DataError.readOnlyError) := by
  refine ⟨?_, ?_, ?_, ?_, ?_, ?_, ?_, ?_, ?_, ?_, ?_⟩
  · intro name value st h
    simp [string_property_setter, set_property_raise_if_read_only, h]
  · intro name value st h
    simp [float_property_setter, set_property_raise_if_read_only, h]
  · intro name value st h
    simp [int_property_setter, set_property_raise_if_read_only, h]
  · intro name value st h
    simp [bool_property_setter, set_property_raise_if_read_only, h]
  · intro name tv fv value st h
    simp [bool_string_property_setter, set_property_raise_if_read_only, h]
  · intro α name ti value st h
    simp [enum_string_property_setter, set_property_raise_if_read_only, h]
  · intro α name ti value st h
    simp [enum_int_property_setter, set_property_raise_if_read_only, h]
  · intro name rc mid value st h
    simp [data_property_setter, set_property_raise_if_read_only, h]
  · intro name rc mid value st h
    simp [no_none_data_property_setter, set_property_raise_if_read_only, h]
  · intro name value hc st h
    simp [stiffness_property_setter, set_property_raise_if_read_only, h]
  · intro name value st
    simp only [point_property_setter, set_point2D_property, set_property]
    cases hv : raise_if_invalid_string_property_value value.bracket_string with
    | error e =>
      simp only [hv]
      have he := raise_if_invalid_error hv
      subst he
      simp
    | ok u =>
      simp only [hv]
      simp

/-- Counterexample to C3 as stated: invoking the point-property setter on a
read-only entity does not fail with ReadOnlyError (the delimiter validation
of Data._set_property rejects the encoded location instead, since every
Point2D bracket string contains delimiters, and no read-only check runs at
all on this path). -/
theorem claim_C3_counterexample :
    point_property_setter "Location".toList (Point2D.mk "[0.0][0.0]".toList)
        (DataState.mk true [])
      = (Except.error DataError.invalidValueError, DataState.mk true []) ∧
    (point_property_setter "Location".toList (Point2D.mk "[0.0][0.0]".toList)
        (DataState.mk true [])).fst
      ≠ Except.error DataError.readOnlyError := by
  constructor
  · rfl
  · intro h
    have h1 : (point_property_setter "Location".toList
        (Point2D.mk "[0.0][0.0]".toList) (DataState.mk true [])).fst
        = Except.error DataError.invalidValueError := rfl
    rw [h1] at h
    injection h with h2
    exact DataError.noConfusion h2

/-- Witness for C3 (amended) with every setter applied on a concrete
read-only entity. -/
theorem claim_C3_witness :
    string_property_setter "Name".toList "v".toList (DataState.mk true [])
      = (.error .readOnlyError, DataState.mk true []) ∧
    float_property_setter "Fx".toList (PyFloat.lit "1.0".toList)
      (DataState.mk true []) = (.error .readOnlyError, DataState.mk true []) ∧
    int_property_setter "Number".toList 3 (DataState.mk true [])
      = (.error .readOnlyError, DataState.mk true []) ∧
    bool_property_setter "Visible".toList true (DataState.mk true [])
      = (.error .readOnlyError, DataState.mk true []) ∧
    bool_string_property_setter "Side".toList "above".toList "below".toList
      true (DataState.mk true [])
      = (.error .readOnlyError, DataState.mk true []) ∧
    enum_string_property_setter "Kind".toList (fun _ : Bool => "x".toList)
      true (DataState.mk true [])
      = (.error .readOnlyError, DataState.mk true []) ∧
    enum_int_property_setter "Kind".toList (fun _ : Bool => (0 : Int)) true
      (DataState.mk true []) = (.error .readOnlyError, DataState.mk true []) ∧
    data_property_setter "Concrete".toList true 0
      (some (DataRef.mk "7".toList 0)) (DataState.mk true [])
      = (.error .readOnlyError, DataState.mk true []) ∧
    no_none_data_property_setter "Concrete".toList true 0
      (some (DataRef.mk "7".toList 0)) (DataState.mk true [])
      = (.error .readOnlyError, DataState.mk true []) ∧
    stiffness_property_setter "KFactor".toList (PyFloat.lit "1.0".toList) true
      (DataState.mk true []) = (.error .readOnlyError, DataState.mk true []) ∧
    (point_property_setter "Location".toList (Point2D.mk "[0.0][0.0]".toList)
      (DataState.mk true [])).fst ≠ Except.error DataError.readOnlyError :=
  ⟨claim_C3_read_only_enforcement.1 _ _ _ rfl,
   claim_C3_read_only_enforcement.2.1 _ _ _ rfl,
   claim_C3_read_only_enforcement.2.2.1 _ _ _ rfl,
   claim_C3_read_only_enforcement.2.2.2.1 _ _ _ rfl,
   claim_C3_read_only_enforcement.2.2.2.2.1 _ _ _ _ _ rfl,
   claim_C3_read_only_enforcement.2.2.2.2.2.1 Bool _ _ _ _ rfl,
   claim_C3_read_only_enforcement.2.2.2.2.2.2.1 Bool _ _ _ _ rfl,
   claim_C3_read_only_enforcement.2.2.2.2.2.2.2.1 _ _ _ _ _ rfl,
   claim_C3_read_only_enforcement.2.2.2.2.2.2.2.2.1 _ _ _ _ _ rfl,
   claim_C3_read_only_enforcement.2.2.2.2.2.2.2.2.2.1 _ _ _ _ rfl,
   claim_C3_read_only_enforcement.2.2.2.2.2.2.2.2.2.2 _ _ _⟩

/-- C4: the bulk entity-creation operations compensate on failure: whenever
CadLayer._bulk_add, or ForceLoadingLayer.add_point_loads through either a
failed individual creation or a failed subsequent value assignment, raises,
every entity created earlier in that same batch has been deleted when the
error propagates, so the surviving entity set equals the pre-call one. -/
theorem claim_C4_bulk_compensation :
    (∀ (add_fails : Nat → Bool) (location_count : Nat) (st : ServerState)
      (e : Unit) (st' : ServerState),
      (∀ u ∈ st.entities, u < st.next_uid) →
      bulk_add add_fails location_count st = (.error e, st') →
      st'.entities = st.entities) ∧
    (∀ (layer_read_only : Bool) (add_fails : Nat → Bool)
      (set_fails : Nat → Nat → Bool) (x_count y_count : Nat)
      (elevation Fx Fy Fz Mx My : Option (List PyFloat)) (st : ServerState)
      (e : Unit) (st' : ServerState),
      (∀ u ∈ st.entities, u < st.next_uid) →
      add_point_loads layer_read_only add_fails set_fails x_count y_count
        elevation Fx Fy Fz Mx My st = (.error e, st') →
      st'.entities = st.entities) := by
  have hba : ∀ (add_fails : Nat → Bool) (n : Nat) (st : ServerState) (e : Unit)
      (st' : ServerState),
      (∀ u ∈ st.entities, u < st.next_uid) →
      bulk_add add_fails n st = (.error e, st') →
      st'.entities = st.entities := by
    intro add_fails n st e st' hinv h
    have h1 := bulk_add_go_error add_fails (List.range n) [] st e st' hinv h
    simpa using h1
  refine ⟨hba, ?_⟩
  intro lro add_fails set_fails xc yc elevation Fx Fy Fz Mx My st e st' hinv h
  rw [add_point_loads] at h
  split at h
  · injection h with h2 h3
    rw [← h3]
  · split at h
    · injection h with h3 h4
      rw [← h4]
    · split at h
      next e1 st1 heq =>
        injection h with h6 h7
        rw [← h7]
        exact hba add_fails xc st e1 st1 hinv heq
      next pl st1 heq =>
        obtain ⟨newly, hpl0, hents, hfresh⟩ :=
          bulk_add_go_ok add_fails (List.range xc) [] st pl st1 hinv heq
        have hpl : pl = newly := by simpa using hpl0
        subst hpl
        split at h
        next u hrs =>
          injection h with h6 h7
          exact Except.noConfusion h6
        next e2 hrs =>
          injection h with h6 h7
          rw [← h7, delete_all_entities, hents, List.filter_append]
          have hn : pl.filter (fun u => decide (u ∉ pl)) = [] := by
            rw [List.filter_eq_nil]
            intro a ha
            simp [ha]
          have hs : st.entities.filter (fun u => decide (u ∉ pl))
              = st.entities := by
            rw [List.filter_eq_self]
            intro a ha
            have hlt := hinv a ha
            simp only [decide_eq_true_eq]
            intro hmem
            have := hfresh a hmem
            omega
          rw [hn, hs, List.append_nil]

/-- Witness for C4: a bulk add of 5 point loads whose 3rd value assignment
(the Fx assignment for the third entity) fails leaves zero entities from the
call remaining: the final entity list equals the empty pre-call one. -/
theorem claim_C4_witness :
    (ServerState.mk [] 5).entities = (ServerState.mk [] 0).entities :=
  claim_C4_bulk_compensation.2 false (fun _ => false)
    (fun p i => p == 1 && i == 2) 5 5 none
    (some (List.replicate 5 (PyFloat.lit "1.0".toList))) none none none none
    (ServerState.mk [] 0) () (ServerState.mk [] 5) (by simp) (by rfl)

/-- C5: the response handling of Concept._command realizes exactly one of
three outcomes selected by the fixed-width 10-character response head: a
SUCCESS envelope returns the inner payload (the response without the head and
without the final closing delimiter), a FAILURE envelope fails with the
RemoteError family carrying that payload, and anything else fails with the
InternalError family whose message embeds the raw response; the two envelope
heads are mutually exclusive. -/
theorem claim_C5_envelope_outcomes :
    ∀ result : List Char,
      (result.take 10 = SUCCESS_MARK →
        command_response result = .ok ((result.drop 10).dropLast)) ∧
      (result.take 10 = FAILURE_MARK →
        command_response result
          = .error (.remoteError ((result.drop 10).dropLast))) ∧
      (result.take 10 ≠ SUCCESS_MARK → result.take 10 ≠ FAILURE_MARK →
        command_response result
          = .error (.internalError (INTERNAL_ERROR_TEXT ++ result))) ∧
      ¬ (result.take 10 = SUCCESS_MARK ∧ result.take 10 = FAILURE_MARK) := by
  intro result
  refine ⟨?_, ?_, ?_, ?_⟩
  · intro h
    rw [command_response, if_pos h]
  · intro h
    rw [command_response, if_neg (by rw [h]; decide), if_pos h]
  · intro h1 h2
    rw [command_response, if_neg h1, if_neg h2]
  · rintro ⟨hs, hf⟩
    rw [hs] at hf
    exact absurd hf (by decide)

/-- Witness for C5 on one response of each shape. -/
theorem claim_C5_witness :
    command_response "[SUCCESS][42]".toList = .ok "42".toList ∧
    command_response "[FAILURE][bad cmd]".toList
      = .error (.remoteError "bad cmd".toList) ∧
    command_response "garbage".toList
      = .error (.internalError (INTERNAL_ERROR_TEXT ++ "garbage".toList)) := by
  refine ⟨?_, ?_, ?_⟩
  · have h := (claim_C5_envelope_outcomes "[SUCCESS][42]".toList).1 (by decide)
    rw [h]
    rfl
  · have h := (claim_C5_envelope_outcomes "[FAILURE][bad cmd]".toList).2.1
      (by decide)
    rw [h]
    rfl
  · exact (claim_C5_envelope_outcomes "garbage".toList).2.2.1 (by decide)
      (by decide)

/-- C6: Data._set_property, the choke point of every property write,
validates the value before transmitting: a value containing either delimiter
character fails with the InvalidValue family and nothing reaches the
transport (the transcript is unchanged); a value containing neither delimiter
passes the validation and exactly the one SET_PROP command is transmitted. -/
theorem claim_C6_delimiter_validation :
    ∀ (property_name value : List Char) (units : PropertyUnits)
      (st : DataState),
      ((BracketParser.START_TAG ∈ value ∨ BracketParser.END_TAG ∈ value) →
        set_property property_name value units st
          = (.error .invalidValueError, st)) ∧
      (BracketParser.START_TAG ∉ value → BracketParser.END_TAG ∉ value →
        set_property property_name value units st
          = (.ok (), data_command
              (set_property_command property_name value units) st)) := by
  intro property_name value units st
  constructor
  · intro h
    rw [set_property]
    by_cases h1 : BracketParser.START_TAG ∈ value
    · rw [show raise_if_invalid_string_property_value value
          = .error .invalidValueError from by
        rw [raise_if_invalid_string_property_value, if_pos h1]]
    · have h2 : BracketParser.END_TAG ∈ value := h.resolve_left h1
      rw [show raise_if_invalid_string_property_value value
          = .error .invalidValueError from by
        rw [raise_if_invalid_string_property_value, if_neg h1, if_pos h2]]
  · intro h1 h2
    rw [set_property]
    rw [show raise_if_invalid_string_property_value value = .ok () from by
      rw [raise_if_invalid_string_property_value, if_neg h1, if_neg h2]]

/-- Witness for C6: a write of a value containing an opening delimiter fails
with nothing transmitted, and a delimiter-free value is transmitted. -/
theorem claim_C6_witness :
    set_property "Name".toList "a[b".toList PropertyUnits.internal
        (DataState.mk false [])
      = (.error .invalidValueError, DataState.mk false []) ∧
    set_property "Name".toList "ab".toList PropertyUnits.internal
        (DataState.mk false [])
      = (.ok (), data_command
          (set_property_command "Name".toList "ab".toList
            PropertyUnits.internal) (DataState.mk false [])) :=
  ⟨(claim_C6_delimiter_validation "Name".toList "a[b".toList
      PropertyUnits.internal (DataState.mk false [])).1 (Or.inl (by decide)),
   (claim_C6_delimiter_validation "Name".toList "ab".toList
      PropertyUnits.internal (DataState.mk false [])).2 (by decide) (by decide)⟩

/-- C8: Data._get_bool_property compares the raw internal string
case-insensitively with the literals: any casing of "true" decodes to true,
any casing of "false" decodes to false, and any other raw value fails with
the InternalError family (the unexpected-bool-string message). -/
theorem claim_C8_bool_decode :
    ∀ bool_string : List Char,
      (bool_string.map Char.toLower = "true".toList →
        get_bool_property_of_raw bool_string = .ok true) ∧
      (bool_string.map Char.toLower = "false".toList →
        get_bool_property_of_raw bool_string = .ok false) ∧
      (bool_string.map Char.toLower ≠ "true".toList →
        bool_string.map Char.toLower ≠ "false".toList →
        get_bool_property_of_raw bool_string
          = .error (.unexpectedBoolError bool_string)) := by
  intro bool_string
  refine ⟨?_, ?_, ?_⟩
  · intro h
    rw [get_bool_property_of_raw, if_pos h]
  · intro h
    rw [get_bool_property_of_raw, if_neg (by rw [h]; decide), if_pos h]
  · intro h1 h2
    rw [get_bool_property_of_raw, if_neg h1, if_neg h2]

/-- Witness for C8 on concrete casings and on the value "maybe". -/
theorem claim_C8_witness :
    get_bool_property_of_raw "TRUE".toList = .ok true ∧
    get_bool_property_of_raw "FaLsE".toList = .ok false ∧
    get_bool_property_of_raw "maybe".toList
      = .error (.unexpectedBoolError "maybe".toList) :=
  ⟨(claim_C8_bool_decode "TRUE".toList).1 (by decide),
   (claim_C8_bool_decode "FaLsE".toList).2.1 (by decide),
   (claim_C8_bool_decode "maybe".toList).2.2 (by decide) (by decide)⟩

/-- C9: parse_floats tokenizes its input and converts each token in order
with _user_str_to_API_float, which maps the sentinel token "infinite" to
sys.float_info.max (the largest-magnitude representable finite positive
float) and "-infinite" to its negation rather than a true infinity; in
particular "[1.5][infinite][-infinite]" parses to the float of "1.5"
followed by the two sentinel values. -/
theorem claim_C9_parse_floats :
    (∀ (s : List Char) (ts : List (List Char)),
      BracketParser.parse s = some ts →
      parse_floats s = some (ts.map _user_str_to_API_float)) ∧
    _user_str_to_API_float "infinite".toList = PyFloat.finite_max ∧
    _user_str_to_API_float "-infinite".toList = PyFloat.neg_finite_max ∧
    parse_floats "[1.5][infinite][-infinite]".toList
      = some [PyFloat.lit "1.5".toList, PyFloat.finite_max,
          PyFloat.neg_finite_max] := by
  refine ⟨?_, by decide, by decide, by decide⟩
  intro s ts h
  rw [parse_floats, h]
  rfl

/-- Witness for C9 at the concrete example string. -/
theorem claim_C9_witness :
    BracketParser.parse "[1.5][infinite][-infinite]".toList
      = some ["1.5".toList, "infinite".toList, "-infinite".toList] ∧
    parse_floats "[1.5][infinite][-infinite]".toList
      = some (["1.5".toList, "infinite".toList, "-infinite".toList].map
          _user_str_to_API_float) :=
  ⟨by decide, claim_C9_parse_floats.1 "[1.5][infinite][-infinite]".toList
    ["1.5".toList, "infinite".toList, "-infinite".toList] (by decide)⟩
